import Mathlib

/-!
Shallow embedding of the `bgg-ranking-historicals` cleanup utilities.

Two scripts are modelled:

* `remove.py` — `remove_and_deduplicate` walks the sorted file listing of a
  directory, deletes files whose line count falls below a tolerance-scaled
  running maximum (`prev_count`), and optionally deletes files whose content
  is byte-identical to the previously scanned retained content
  (`prev_content`).  The directory is modelled as the sorted list of selected
  files (name plus content); deletions and dry-run prints are recorded as an
  explicit effect list.  The Python `float` tolerance is modelled by `ℚ`.

* `rename.py` — `rename_file` / `rename_files` query the earliest Git commit
  date of each date-named file and rename the file (via `git mv` plus a
  commit) to the full-timestamp form.  Git is modelled by two oracles: the
  raw output of `git log --reverse --pretty=format:%aI -- <path>` and the
  external `parse_date` function.  Filesystem and history mutations are
  recorded as an explicit `GitEffect` list.
-/

/-! ## Cleanup scanner (`remove.py`) -/

/-- Number of lines Python's file iteration yields for a file whose raw
content is `s`: one line per newline character, plus a final line when the
content does not end with a newline. -/
def countLines (s : String) : Nat :=
  if s.data.isEmpty then 0
  else (s.data.filter fun c => c = '\n').length
    + (if s.data.getLast? = some '\n' then 0 else 1)

/-- A candidate file of the scanned directory: its path (as printed or
unlinked) and its raw content. -/
structure SFile where
  name : String
  content : String
deriving DecidableEq, Repr

/-- Outcome of the scan for one file, following the three exits of the loop
body of `remove_and_deduplicate`. -/
inductive Decision where
  | removedShort
  | removedDup
  | retained
deriving DecidableEq, Repr

/-- Observable side effect of the scanner: `print path` (dry run) or
`unlink path` (live run). -/
inductive Effect where
  | print (path : String)
  | unlink (path : String)
deriving DecidableEq, Repr

/-- Loop state of `remove_and_deduplicate`: the running maximum line count,
the previously scanned content, and the two removal counters. -/
structure ScanState where
  prev_count : Nat
  prev_content : String
  removed_short : Nat
  removed_duplicates : Nat
deriving DecidableEq, Repr

/-- Initial loop state (`prev_count = 0`, `prev_content = ""`, counters 0). -/
def initState : ScanState :=
  { prev_count := 0, prev_content := "", removed_short := 0, removed_duplicates := 0 }

/-- Result of the scan: final state, per-file decisions (in scan order) and
the emitted effects. -/
structure ScanResult where
  state : ScanState
  decisions : List Decision
  effects : List Effect
deriving DecidableEq, Repr

/-- The effect emitted when a file is selected for removal: the dry run
prints the path, the live run unlinks it. -/
def removalEffect (dryRun : Bool) (path : String) : Effect :=
  if dryRun then Effect.print path else Effect.unlink path

/-- Prepend one file's decision and effects to the result of the remaining
scan. -/
def consResult (d : Decision) (effs : List Effect) (r : ScanResult) : ScanResult :=
  ⟨r.state, d :: r.decisions, effs ++ r.effects⟩

/-- The scan loop of `remove_and_deduplicate` (lines 46–82 of `remove.py`),
processing the sorted file list from state `s`. -/
def scanGo (tolerance : ℚ) (deduplicate dryRun : Bool) :
    ScanState → List SFile → ScanResult
  | s, [] => ⟨s, [], []⟩
  | s, f :: rest =>
    if (countLines f.content : ℚ) < (s.prev_count : ℚ) * tolerance then
      consResult Decision.removedShort [removalEffect dryRun f.name]
        (scanGo tolerance deduplicate dryRun
          { s with removed_short := s.removed_short + 1 } rest)
    else
      if deduplicate then
        if f.content = s.prev_content then
          consResult Decision.removedDup [removalEffect dryRun f.name]
            (scanGo tolerance deduplicate dryRun
              { s with prev_count := max s.prev_count (countLines f.content),
                       prev_content := f.content,
                       removed_duplicates := s.removed_duplicates + 1 } rest)
        else
          consResult Decision.retained []
            (scanGo tolerance deduplicate dryRun
              { s with prev_count := max s.prev_count (countLines f.content),
                       prev_content := f.content } rest)
      else
        consResult Decision.retained []
          (scanGo tolerance deduplicate dryRun
            { s with prev_count := max s.prev_count (countLines f.content) } rest)

/-- The assertion message of line 28 of `remove.py`. -/
def toleranceMessage : String := "Tolerance must be in the range [0, 1]"

/-- Top level of `remove_and_deduplicate`: the tolerance precondition is
checked first; only then is the directory scanned.  `files` is the sorted
list of files selected by the glob.  The returned pair of counters is
`(removed_short, removed_duplicates)`. -/
def remove_and_deduplicate (tolerance : ℚ) (deduplicate dryRun : Bool)
    (files : List SFile) : Except String ((Nat × Nat) × List Effect) :=
  if 0 ≤ tolerance ∧ tolerance ≤ 1 then
    Except.ok
      (((scanGo tolerance deduplicate dryRun initState files).state.removed_short,
        (scanGo tolerance deduplicate dryRun initState files).state.removed_duplicates),
       (scanGo tolerance deduplicate dryRun initState files).effects)
  else
    Except.error toleranceMessage

/-- Maximum of `base` and the line counts of the files marked `retained` in
a list of (file, decision) pairs. -/
def retainedMaxFrom (base : Nat) : List (SFile × Decision) → Nat
  | [] => base
  | p :: rest =>
    retainedMaxFrom
      (if p.2 = Decision.retained then max base (countLines p.1.content) else base) rest

/-- Content of the last file marked `retained` in a list of (file, decision)
pairs, or `base` when none is marked `retained`. -/
def lastRetainedFrom (base : String) : List (SFile × Decision) → String
  | [] => base
  | p :: rest =>
    lastRetainedFrom (if p.2 = Decision.retained then p.1.content else base) rest

/-- Paths reported by `print` effects, in order. -/
def printedPaths (l : List Effect) : List String :=
  l.filterMap fun e =>
    match e with
    | Effect.print p => some p
    | Effect.unlink _ => none

/-- Paths removed by `unlink` effects, in order. -/
def unlinkedPaths (l : List Effect) : List String :=
  l.filterMap fun e =>
    match e with
    | Effect.unlink p => some p
    | Effect.print _ => none

/-- Whether an effect deletes a file. -/
def isUnlink : Effect → Bool
  | Effect.unlink _ => true
  | Effect.print _ => false

/-- Effects of a `remove_and_deduplicate` result (none when the tolerance
precondition failed). -/
def effectsOf : Except String ((Nat × Nat) × List Effect) → List Effect
  | Except.ok (_, effs) => effs
  | Except.error _ => []

/-- Counters of a `remove_and_deduplicate` result. -/
def countersOf : Except String ((Nat × Nat) × List Effect) → Option (Nat × Nat)
  | Except.ok (c, _) => some c
  | Except.error _ => none

/-! ## History-based renamer (`rename.py`) -/

/-- A commit timestamp, as the fields `strftime` reads. -/
structure DateTime where
  year : Nat
  month : Nat
  day : Nat
  hour : Nat
  minute : Nat
  second : Nat
deriving DecidableEq, Repr

/-- Decimal rendering of `n`, left-padded with zeros to `width` characters
(as the `strftime` directives `%Y`, `%m`, ... do). -/
def padZeros (width n : Nat) : String :=
  String.mk (List.replicate (width - (toString n).data.length) '0') ++ toString n

/-- The `DATE_FORMAT = "%Y-%m-%dT%H-%M-%S"` rendering of a date. -/
def strftimeDateFormat (d : DateTime) : String :=
  padZeros 4 d.year ++ "-" ++ padZeros 2 d.month ++ "-" ++ padZeros 2 d.day ++ "T"
    ++ padZeros 2 d.hour ++ "-" ++ padZeros 2 d.minute ++ "-" ++ padZeros 2 d.second

/-- First `n` characters of `s` (Python's `s[:n]` slices code points). -/
def takeChars (s : String) (n : Nat) : String :=
  String.mk (s.data.take n)

/-- The part of `log` before its first newline: Python's
`next(iter(log.split("\n", 1)))` for non-empty `log`. -/
def firstLineOf (log : String) : String :=
  String.mk (log.data.takeWhile fun c => c ≠ '\n')

/-- `pathlib.PurePath.stem`: the file name without its last suffix (a suffix
needs a dot later than position 0). -/
def stemOf (name : String) : String :=
  match List.findIdx? (fun c => c = '.') name.data.reverse with
  | none => name
  | some j =>
    if name.data.length - 1 - j = 0 then name
    else String.mk (name.data.take (name.data.length - 1 - j))

/-- Effect on the Git repository: a tracked move (`repo.git().mv`) or a new
commit.  The code commits the message `src ++ " -> " ++ dst`; the commit
effect keeps the two names so the message is recoverable exactly (see
`renameCommitMessage`). -/
inductive GitEffect where
  | mv (src dst : String)
  | commit (src dst : String)
deriving DecidableEq, Repr

/-- The commit message `f"{path_file.name} -> {new_file_name}"` recorded by
a `commit` effect. -/
def renameCommitMessage : GitEffect → Option String
  | GitEffect.commit src dst => some (src ++ " -> " ++ dst)
  | GitEffect.mv _ _ => none

/-- The file a Git effect acts on (the moved / committed-over file). -/
def effectSource : GitEffect → String
  | GitEffect.mv src _ => src
  | GitEffect.commit src _ => src

/-- Per-file terminal state of `rename_file`: skipped by the strict guard,
or moved to its new name. -/
inductive RenameOutcome where
  | skipped
  | moved (newName : String)
deriving DecidableEq, Repr

/-- `first_commit_date` (lines 22–30 of `rename.py`): empty `git log` output
means no commit history (`None`); otherwise the first output line is handed
to the external `parse_date`. -/
def first_commit_date (log : String) (parseDate : String → Option DateTime) :
    Option DateTime :=
  if log = "" then none
  else parseDate (firstLineOf log)

/-- Error message modelling the `AttributeError` Python raises at
`date.strftime(DATE_FORMAT)` when `first_commit_date` returned `None`. -/
def missingDateError (name : String) : String :=
  "no commit date for " ++ name

/-- `rename_file` (lines 33–59 of `rename.py`).  `gitLog` is the raw
`git log` output oracle per path, `parseDate` the external date parser.
Returns the per-file outcome and the Git effects performed, or an error
when the commit date is missing. -/
def rename_file (parseDate : String → Option DateTime) (gitLog : String → String)
    (name : String) (strict dryRun : Bool) :
    Except String (RenameOutcome × List GitEffect) :=
  match first_commit_date (gitLog name) parseDate with
  | none => Except.error (missingDateError name)
  | some date =>
    if strict = true ∧ takeChars (strftimeDateFormat date) 10 ≠ stemOf name then
      Except.ok (RenameOutcome.skipped, [])
    else
      Except.ok
        (RenameOutcome.moved (strftimeDateFormat date ++ ".csv"),
         if dryRun then []
         else
           [GitEffect.mv name (strftimeDateFormat date ++ ".csv"),
            GitEffect.commit name (strftimeDateFormat date ++ ".csv")])

/-- One atom of a glob pattern: a literal character or a character range. -/
inductive GlobAtom where
  | lit (c : Char)
  | range (lo hi : Char)
deriving DecidableEq, Repr

/-- Whether one pattern atom matches one character. -/
def atomMatch : GlobAtom → Char → Bool
  | GlobAtom.lit c, x => x = c
  | GlobAtom.range lo hi, x => decide (lo ≤ x) && decide (x ≤ hi)

/-- Whether a wildcard-free glob pattern matches a character list (each atom
matches exactly one character). -/
def globRun : List GlobAtom → List Char → Bool
  | [], [] => true
  | p :: ps, c :: cs => atomMatch p c && globRun ps cs
  | _, _ => false

/-- The atoms of `FILE_GLOB = "20[0-9][0-9]-[0-1][0-9]-[0-3][0-9].csv"`. -/
def fileGlobAtoms : List GlobAtom :=
  [GlobAtom.lit '2', GlobAtom.lit '0', GlobAtom.range '0' '9', GlobAtom.range '0' '9',
   GlobAtom.lit '-', GlobAtom.range '0' '1', GlobAtom.range '0' '9',
   GlobAtom.lit '-', GlobAtom.range '0' '3', GlobAtom.range '0' '9',
   GlobAtom.lit '.', GlobAtom.lit 'c', GlobAtom.lit 's', GlobAtom.lit 'v']

/-- Whether a file name matches `FILE_GLOB`. -/
def matchesFileGlob (name : String) : Bool :=
  globRun fileGlobAtoms name.data

/-- Lexicographic comparison of character lists by code point, as Python's
string `<=`. -/
def charListLe : List Char → List Char → Bool
  | [], _ => true
  | _ :: _, [] => false
  | a :: as, b :: bs =>
    if a < b then true else if b < a then false else charListLe as bs

/-- String comparison used by `sorted(...)`. -/
def strLe (a b : String) : Bool :=
  charListLe a.data b.data

/-- Insert into a sorted list of strings. -/
def insertStr (x : String) : List String → List String
  | [] => [x]
  | y :: ys => if strLe x y then x :: y :: ys else y :: insertStr x ys

/-- Stable sort of file names, modelling Python's `sorted`. -/
def sortStrings : List String → List String
  | [] => []
  | x :: xs => insertStr x (sortStrings xs)

/-- The loop of `rename_files`: process each name in turn; an error raised
by `rename_file` aborts the run (uncaught exception), keeping the effects
already performed. -/
def renameFilesGo (parseDate : String → Option DateTime) (gitLog : String → String)
    (strict dryRun : Bool) : List String → List GitEffect × Option String
  | [] => ([], none)
  | n :: rest =>
    match rename_file parseDate gitLog n strict dryRun with
    | Except.error e => ([], some e)
    | Except.ok (_, effs) =>
      ((effs ++ (renameFilesGo parseDate gitLog strict dryRun rest).1),
       (renameFilesGo parseDate gitLog strict dryRun rest).2)

/-- `rename_files` (lines 62–69 of `rename.py`): the directory listing is
filtered by `FILE_GLOB`, sorted, and each file is renamed in turn.  Returns
the Git effects performed and the error that aborted the run, if any. -/
def rename_files (parseDate : String → Option DateTime) (gitLog : String → String)
    (names : List String) (strict dryRun : Bool) : List GitEffect × Option String :=
  renameFilesGo parseDate gitLog strict dryRun
    (sortStrings (names.filter fun n => matchesFileGlob n))

example : countLines "" = 0 := by decide
example : countLines "a\nb" = 2 := by decide
example : countLines "a\nb\n" = 2 := by decide
example : matchesFileGlob "2021-05-01.csv" = true := by decide
example : matchesFileGlob "2021-05-01T14-30-00.csv" = false := by decide
example : matchesFileGlob "1999-05-01.csv" = false := by decide
example : stemOf "2021-05-01.csv" = "2021-05-01" := by decide
example : strftimeDateFormat ⟨2021, 5, 1, 14, 30, 0⟩ = "2021-05-01T14-30-00" := by decide
example : takeChars "2021-05-01T14-30-00" 10 = "2021-05-01" := by decide
example : sortStrings ["b.csv", "a.csv"] = ["a.csv", "b.csv"] := by decide

/-! ## Scanner lemmas -/

theorem scanGo_decisions_length (t : ℚ) (dedup dryRun : Bool) (files : List SFile)
    (s : ScanState) : (scanGo t dedup dryRun s files).decisions.length = files.length := by
  induction files generalizing s with
  | nil => simp [scanGo]
  | cons f rest ih =>
    simp only [scanGo]
    split
    · simp [consResult, ih]
    · split
      · split
        · simp [consResult, ih]
        · simp [consResult, ih]
      · simp [consResult, ih]

theorem scanGo_append (t : ℚ) (dedup dryRun : Bool) (xs ys : List SFile) (s : ScanState) :
    scanGo t dedup dryRun s (xs ++ ys) =
      ⟨(scanGo t dedup dryRun (scanGo t dedup dryRun s xs).state ys).state,
       (scanGo t dedup dryRun s xs).decisions
         ++ (scanGo t dedup dryRun (scanGo t dedup dryRun s xs).state ys).decisions,
       (scanGo t dedup dryRun s xs).effects
         ++ (scanGo t dedup dryRun (scanGo t dedup dryRun s xs).state ys).effects⟩ := by
  induction xs generalizing s with
  | nil => simp [scanGo]
  | cons f rest ih =>
    simp only [List.cons_append, scanGo]
    split
    · simp [consResult, ih]
    · split
      · split
        · simp [consResult, ih]
        · simp [consResult, ih]
      · simp [consResult, ih]

theorem scanGo_state_spec (t : ℚ) (dedup dryRun : Bool) (files : List SFile) (s : ScanState)
    (hinv : countLines s.prev_content ≤ s.prev_count) :
    (scanGo t dedup dryRun s files).state.prev_count
        = retainedMaxFrom s.prev_count (files.zip (scanGo t dedup dryRun s files).decisions)
      ∧ countLines (scanGo t dedup dryRun s files).state.prev_content
          ≤ (scanGo t dedup dryRun s files).state.prev_count
      ∧ (dedup = true →
          (scanGo t dedup dryRun s files).state.prev_content
            = lastRetainedFrom s.prev_content
                (files.zip (scanGo t dedup dryRun s files).decisions)) := by
  induction files generalizing s with
  | nil =>
    refine ⟨?_, hinv, fun _ => ?_⟩ <;> simp [scanGo, retainedMaxFrom, lastRetainedFrom]
  | cons f rest ih =>
    simp only [scanGo]
    split
    next hshort =>
      simpa [consResult, retainedMaxFrom, lastRetainedFrom] using
        ih { s with removed_short := s.removed_short + 1 } hinv
    next hlong =>
      split
      next hded =>
        split
        next hcont =>
          have hmax : s.prev_count ⊔ countLines s.prev_content = s.prev_count :=
            sup_eq_left.mpr hinv
          have h := ih
            { s with prev_count := max s.prev_count (countLines f.content),
                     prev_content := f.content,
                     removed_duplicates := s.removed_duplicates + 1 }
            (Nat.le_max_right _ _)
          simpa [consResult, retainedMaxFrom, lastRetainedFrom, hcont, hmax] using h
        next hcont =>
          have h := ih
            { s with prev_count := max s.prev_count (countLines f.content),
                     prev_content := f.content }
            (Nat.le_max_right _ _)
          simpa [consResult, retainedMaxFrom, lastRetainedFrom] using h
      next hded =>
        have h := ih
          { s with prev_count := max s.prev_count (countLines f.content) }
          (le_trans hinv (Nat.le_max_left _ _))
        refine ⟨?_, h.2.1, fun hd => absurd hd hded⟩
        simpa [consResult, retainedMaxFrom] using h.1

theorem scanGo_head_short (t : ℚ) (dedup dryRun : Bool) (f : SFile) (rest : List SFile)
    (s : ScanState) :
    (scanGo t dedup dryRun s (f :: rest)).decisions.head? = some Decision.removedShort
      ↔ (countLines f.content : ℚ) < (s.prev_count : ℚ) * t := by
  simp only [scanGo]
  split
  next h => simpa [consResult] using h
  next h =>
    split
    · split <;> simp [consResult, h]
    · simp [consResult, h]

theorem scanGo_head_dup (t : ℚ) (dedup dryRun : Bool) (f : SFile) (rest : List SFile)
    (s : ScanState)
    (hd : (scanGo t dedup dryRun s (f :: rest)).decisions.head? = some Decision.removedDup) :
    f.content = s.prev_content := by
  revert hd
  simp only [scanGo]
  split
  · simp [consResult]
  · split
    · split
      next hcont => exact fun _ => hcont
      next hcont => simp [consResult]
    · simp [consResult]

theorem scanGo_dryRun_state (t : ℚ) (dedup b1 b2 : Bool) (files : List SFile)
    (s : ScanState) :
    (scanGo t dedup b1 s files).state = (scanGo t dedup b2 s files).state
      ∧ (scanGo t dedup b1 s files).decisions = (scanGo t dedup b2 s files).decisions := by
  induction files generalizing s with
  | nil => simp [scanGo]
  | cons f rest ih =>
    simp only [scanGo]
    split
    · simpa [consResult] using ih _
    · split
      · split <;> simpa [consResult] using ih _
      · simpa [consResult] using ih _

theorem scanGo_removal_paths (t : ℚ) (dedup : Bool) (files : List SFile) (s : ScanState) :
    printedPaths (scanGo t dedup true s files).effects
      = unlinkedPaths (scanGo t dedup false s files).effects := by
  induction files generalizing s with
  | nil => simp [scanGo, printedPaths, unlinkedPaths]
  | cons f rest ih =>
    simp only [scanGo]
    split
    · simpa [consResult, removalEffect, printedPaths, unlinkedPaths] using ih _
    · split
      · split <;> simpa [consResult, removalEffect, printedPaths, unlinkedPaths] using ih _
      · simpa [consResult, printedPaths, unlinkedPaths] using ih _

theorem scanGo_dry_no_unlink (t : ℚ) (dedup : Bool) (files : List SFile) (s : ScanState) :
    (scanGo t dedup true s files).effects.filter isUnlink = [] := by
  induction files generalizing s with
  | nil => simp [scanGo]
  | cons f rest ih =>
    simp only [scanGo]
    split
    · simpa [consResult, removalEffect, isUnlink] using ih _
    · split
      · split <;> simpa [consResult, removalEffect, isUnlink] using ih _
      · simpa [consResult, isUnlink] using ih _



theorem scanGo_dup_counter_mono (t : ℚ) (dedup dryRun : Bool) (files : List SFile)
    (s : ScanState) :
    s.removed_duplicates ≤ (scanGo t dedup dryRun s files).state.removed_duplicates := by
  induction files generalizing s with
  | nil => simp [scanGo]
  | cons f rest ih =>
    simp only [scanGo]
    split
    · exact ih { s with removed_short := s.removed_short + 1 }
    · split
      · split
        · exact le_trans (Nat.le_succ _)
            (ih { s with prev_count := max s.prev_count (countLines f.content),
                         prev_content := f.content,
                         removed_duplicates := s.removed_duplicates + 1 })
        · exact ih { s with prev_count := max s.prev_count (countLines f.content),
                            prev_content := f.content }
      · exact ih { s with prev_count := max s.prev_count (countLines f.content) }

/-! ## Claim theorems for the cleanup scanner -/

/-- Claim C1: for files taken in sorted order and any tolerance `t ∈ [0,1]`,
the file following the prefix `pre` (position `i = pre.length`) is removed
for shortness iff its line count is below `t` times the maximum line count
among the earlier files not already removed (the earlier retained files, 0
when there is none), and after the scan the baseline `prev_count` equals the
maximum line count among all retained files (0 if none are retained). -/
theorem c1_short_removal_iff_baseline (t : ℚ) (h0 : 0 ≤ t) (h1 : t ≤ 1)
    (dedup dryRun : Bool) (pre : List SFile) (f : SFile) (post : List SFile) :
    ((scanGo t dedup dryRun initState (pre ++ f :: post)).decisions[pre.length]?
        = some Decision.removedShort
      ↔ (countLines f.content : ℚ)
          < t * (retainedMaxFrom 0 (pre.zip
              ((scanGo t dedup dryRun initState (pre ++ f :: post)).decisions.take
                pre.length)) : ℚ))
    ∧ (scanGo t dedup dryRun initState (pre ++ f :: post)).state.prev_count
        = retainedMaxFrom 0 ((pre ++ f :: post).zip
            (scanGo t dedup dryRun initState (pre ++ f :: post)).decisions) := by
  have happ := scanGo_append t dedup dryRun pre (f :: post) initState
  have hlen := scanGo_decisions_length t dedup dryRun pre initState
  have hspec_pre := scanGo_state_spec t dedup dryRun pre initState (by decide)
  have hspec_all :=
    scanGo_state_spec t dedup dryRun (pre ++ f :: post) initState (by decide)
  have hpc : (scanGo t dedup dryRun initState pre).state.prev_count
      = retainedMaxFrom 0 (pre.zip (scanGo t dedup dryRun initState pre).decisions) :=
    hspec_pre.1
  refine ⟨?_, hspec_all.1⟩
  rw [happ]
  have hidx : ((scanGo t dedup dryRun initState pre).decisions
        ++ (scanGo t dedup dryRun
              (scanGo t dedup dryRun initState pre).state (f :: post)).decisions)[pre.length]?
      = (scanGo t dedup dryRun
          (scanGo t dedup dryRun initState pre).state (f :: post)).decisions[0]? := by
    rw [List.getElem?_append_right (le_of_eq hlen), hlen, Nat.sub_self]
  have htake : ((scanGo t dedup dryRun initState pre).decisions
        ++ (scanGo t dedup dryRun
              (scanGo t dedup dryRun initState pre).state (f :: post)).decisions).take
          pre.length
      = (scanGo t dedup dryRun initState pre).decisions := by
    rw [← hlen, List.take_left]
  rw [hidx, htake, ← List.head?_eq_getElem?, scanGo_head_short, hpc,
    mul_comm ((retainedMaxFrom 0
      (pre.zip (scanGo t dedup dryRun initState pre).decisions) : Nat) : ℚ) t]

/-- Witness for C1 at `t = 1`, a single one-line file: the file is not
removed for shortness (1 is not below `1 * 0`) and the final baseline is its
line count. -/
theorem c1_witness :
    (0 : ℚ) ≤ 1 ∧ (1 : ℚ) ≤ 1
    ∧ (((scanGo 1 true false initState
          ([] ++ (⟨"a.csv", "x"⟩ : SFile) :: [])).decisions[([] : List SFile).length]?
            = some Decision.removedShort
          ↔ (countLines (SFile.mk "a.csv" "x").content : ℚ)
              < 1 * (retainedMaxFrom 0 (([] : List SFile).zip
                  ((scanGo 1 true false initState
                    ([] ++ (⟨"a.csv", "x"⟩ : SFile) :: [])).decisions.take
                      ([] : List SFile).length)) : ℚ))
        ∧ (scanGo 1 true false initState
              ([] ++ (⟨"a.csv", "x"⟩ : SFile) :: [])).state.prev_count
            = retainedMaxFrom 0 (([] ++ (⟨"a.csv", "x"⟩ : SFile) :: []).zip
                (scanGo 1 true false initState
                  ([] ++ (⟨"a.csv", "x"⟩ : SFile) :: [])).decisions)) :=
  ⟨by norm_num, le_refl 1,
   c1_short_removal_iff_baseline 1 (by norm_num) (le_refl 1) true false
     [] ⟨"a.csv", "x"⟩ []⟩

/-- Counterexample to claim C2 as stated: with deduplication enabled, a
first file with empty content has no preceding retained file, yet it is
removed as a duplicate (of the initial empty `prev_content`) and counted. -/
theorem c2_counterexample :
    (scanGo 1 true false initState [⟨"2020-01-01.csv", ""⟩]).decisions
        = [Decision.removedDup]
      ∧ (scanGo 1 true false initState
          [⟨"2020-01-01.csv", ""⟩]).state.removed_duplicates = 1 := by
  have hc : countLines "" = 0 := by decide
  norm_num [scanGo, hc, initState, consResult]

/-- Claim C2 as amended: with deduplication enabled, a file is removed as a
duplicate only when its content equals the content of the immediately
preceding retained file — or the empty string when no retained file precedes
it (`lastRetainedFrom ""` is exactly that reference); in particular no
comparison is ever made against an older retained file once a newer retained
file has intervened. -/
theorem c2_dup_only_matches_last_retained_or_empty (t : ℚ) (dryRun : Bool)
    (pre : List SFile) (f : SFile) (post : List SFile)
    (hdup : (scanGo t true dryRun initState (pre ++ f :: post)).decisions[pre.length]?
        = some Decision.removedDup) :
    f.content = lastRetainedFrom ""
      (pre.zip ((scanGo t true dryRun initState (pre ++ f :: post)).decisions.take
        pre.length)) := by
  have happ := scanGo_append t true dryRun pre (f :: post) initState
  have hlen := scanGo_decisions_length t true dryRun pre initState
  have hspec_pre := scanGo_state_spec t true dryRun pre initState (by decide)
  rw [happ] at hdup
  rw [List.getElem?_append_right (le_of_eq hlen), hlen, Nat.sub_self,
    ← List.head?_eq_getElem?] at hdup
  have hcont := scanGo_head_dup t true dryRun f post _ hdup
  rw [hcont, happ]
  have htake : ((scanGo t true dryRun initState pre).decisions
        ++ (scanGo t true dryRun
              (scanGo t true dryRun initState pre).state (f :: post)).decisions).take
          pre.length
      = (scanGo t true dryRun initState pre).decisions := by
    rw [← hlen, List.take_left]
  rw [htake]
  exact hspec_pre.2.2 rfl

/-- Witness for the amended C2: two identical one-line files; the second is
removed as a duplicate and its content equals the content of the retained
first file. -/
theorem c2_amended_witness :
    (scanGo 1 true false initState
        ([⟨"a", "x"⟩] ++ (⟨"b", "x"⟩ : SFile) :: [])).decisions[
          ([⟨"a", "x"⟩] : List SFile).length]? = some Decision.removedDup
    ∧ (SFile.mk "b" "x").content = lastRetainedFrom ""
        (([⟨"a", "x"⟩] : List SFile).zip
          ((scanGo 1 true false initState
            ([⟨"a", "x"⟩] ++ (⟨"b", "x"⟩ : SFile) :: [])).decisions.take
              ([⟨"a", "x"⟩] : List SFile).length)) := by
  have hdup : (scanGo 1 true false initState
      ([⟨"a", "x"⟩] ++ (⟨"b", "x"⟩ : SFile) :: [])).decisions[
        ([⟨"a", "x"⟩] : List SFile).length]? = some Decision.removedDup := by
    have hc : countLines "x" = 1 := by decide
    norm_num [scanGo, hc, initState, consResult, Nat.zero_max,
      (by decide : ("x" : String) ≠ "")]
  exact ⟨hdup,
    c2_dup_only_matches_last_retained_or_empty 1 false [⟨"a", "x"⟩] ⟨"b", "x"⟩ [] hdup⟩

/-- Claim C9: when the first file in sorted order has empty content and
deduplication is on, `remove_and_deduplicate` (for any tolerance in `[0,1]`)
removes that first file as a duplicate — the empty file always passes the
short-file check against the initial baseline 0, and its content equals the
initial empty `prev_content` — and counts it in `removed_duplicates`. -/
theorem c9_first_empty_file_removed_as_duplicate (t : ℚ) (h0 : 0 ≤ t) (h1 : t ≤ 1)
    (dryRun : Bool) (name : String) (rest : List SFile) :
    (scanGo t true dryRun initState (⟨name, ""⟩ :: rest)).decisions.head?
        = some Decision.removedDup
      ∧ 1 ≤ (scanGo t true dryRun initState (⟨name, ""⟩ :: rest)).state.removed_duplicates
      ∧ (scanGo t true dryRun initState (⟨name, ""⟩ :: rest)).effects.head?
          = some (removalEffect dryRun name)
      ∧ remove_and_deduplicate t true dryRun (⟨name, ""⟩ :: rest)
          = Except.ok
              (((scanGo t true dryRun initState (⟨name, ""⟩ :: rest)).state.removed_short,
                (scanGo t true dryRun initState (⟨name, ""⟩ :: rest)).state.removed_duplicates),
               (scanGo t true dryRun initState (⟨name, ""⟩ :: rest)).effects) := by
  have hc : countLines "" = 0 := by decide
  have hnotshort : ¬ ((countLines (SFile.mk name "").content : ℚ)
      < (initState.prev_count : ℚ) * t) := by
    simp only [initState, hc]
    norm_num
  have hstep : scanGo t true dryRun initState ((⟨name, ""⟩ : SFile) :: rest)
      = consResult Decision.removedDup [removalEffect dryRun name]
          (scanGo t true dryRun
            { initState with
                prev_count := max initState.prev_count (countLines (SFile.mk name "").content),
                prev_content := (SFile.mk name "").content,
                removed_duplicates := initState.removed_duplicates + 1 } rest) := by
    simp only [scanGo]
    rw [if_neg hnotshort]
    simp [initState]
  refine ⟨?_, ?_, ?_, ?_⟩
  · rw [hstep]; rfl
  · rw [hstep]
    exact scanGo_dup_counter_mono t true dryRun rest
      { initState with
          prev_count := max initState.prev_count (countLines (SFile.mk name "").content),
          prev_content := (SFile.mk name "").content,
          removed_duplicates := initState.removed_duplicates + 1 }
  · rw [hstep]; rfl
  · rw [remove_and_deduplicate, if_pos ⟨h0, h1⟩]

/-- Witness for C9 at `t = 1` with a single empty file. -/
theorem c9_witness :
    (0 : ℚ) ≤ 1 ∧ (1 : ℚ) ≤ 1
    ∧ ((scanGo 1 true false initState ((⟨"2020-01-01.csv", ""⟩ : SFile) :: [])).decisions.head?
          = some Decision.removedDup
        ∧ 1 ≤ (scanGo 1 true false initState
            ((⟨"2020-01-01.csv", ""⟩ : SFile) :: [])).state.removed_duplicates
        ∧ (scanGo 1 true false initState
            ((⟨"2020-01-01.csv", ""⟩ : SFile) :: [])).effects.head?
              = some (removalEffect false "2020-01-01.csv")
        ∧ remove_and_deduplicate 1 true false ((⟨"2020-01-01.csv", ""⟩ : SFile) :: [])
            = Except.ok
                (((scanGo 1 true false initState
                      ((⟨"2020-01-01.csv", ""⟩ : SFile) :: [])).state.removed_short,
                  (scanGo 1 true false initState
                      ((⟨"2020-01-01.csv", ""⟩ : SFile) :: [])).state.removed_duplicates),
                 (scanGo 1 true false initState
                    ((⟨"2020-01-01.csv", ""⟩ : SFile) :: [])).effects)) :=
  ⟨by norm_num, le_refl 1,
   c9_first_empty_file_removed_as_duplicate 1 (by norm_num) (le_refl 1) false
     "2020-01-01.csv" []⟩

/-! ## Renamer lemmas -/

theorem mem_insertStr (x a : String) (l : List String) :
    a ∈ insertStr x l ↔ a = x ∨ a ∈ l := by
  induction l with
  | nil => simp [insertStr]
  | cons y ys ih =>
    simp only [insertStr]
    split
    · simp
    · simp only [List.mem_cons, ih]
      tauto

theorem mem_sortStrings (a : String) (l : List String) :
    a ∈ sortStrings l ↔ a ∈ l := by
  induction l with
  | nil => simp [sortStrings]
  | cons x xs ih => simp [sortStrings, mem_insertStr, ih]

theorem globRun_length {ps : List GlobAtom} {cs : List Char}
    (h : globRun ps cs = true) : cs.length = ps.length := by
  induction ps generalizing cs with
  | nil =>
    cases cs with
    | nil => rfl
    | cons c cs => simp [globRun] at h
  | cons p ps ih =>
    cases cs with
    | nil => simp [globRun] at h
    | cons c cs =>
      simp only [globRun, Bool.and_eq_true] at h
      simp [ih h.2]

theorem padZeros_length (width n : Nat) : width ≤ (padZeros width n).data.length := by
  unfold padZeros
  rw [String.data_append, List.length_append]
  simp only [List.length_replicate]
  omega

theorem strftime_length (d : DateTime) : 19 ≤ (strftimeDateFormat d).data.length := by
  have h1 := padZeros_length 4 d.year
  have h2 := padZeros_length 2 d.month
  have h3 := padZeros_length 2 d.day
  have h4 := padZeros_length 2 d.hour
  have h5 := padZeros_length 2 d.minute
  have h6 := padZeros_length 2 d.second
  have hd : ("-" : String).data.length = 1 := by decide
  have hT : ("T" : String).data.length = 1 := by decide
  unfold strftimeDateFormat
  simp only [String.data_append, List.length_append, hd, hT]
  omega

theorem rename_file_of_none (pd : String → Option DateTime) (gl : String → String)
    (n : String) (strict dry : Bool)
    (hfc : first_commit_date (gl n) pd = none) :
    rename_file pd gl n strict dry = Except.error (missingDateError n) := by
  unfold rename_file
  rw [hfc]

theorem rename_file_of_date (pd : String → Option DateTime) (gl : String → String)
    (n : String) (strict dry : Bool) (d : DateTime)
    (hfc : first_commit_date (gl n) pd = some d) :
    rename_file pd gl n strict dry
      = if strict = true ∧ takeChars (strftimeDateFormat d) 10 ≠ stemOf n then
          Except.ok (RenameOutcome.skipped, [])
        else
          Except.ok (RenameOutcome.moved (strftimeDateFormat d ++ ".csv"),
            if dry = true then []
            else
              [GitEffect.mv n (strftimeDateFormat d ++ ".csv"),
               GitEffect.commit n (strftimeDateFormat d ++ ".csv")]) := by
  unfold rename_file
  rw [hfc]

theorem rename_file_dry_effects (pd : String → Option DateTime) (gl : String → String)
    (n : String) (strict : Bool) (o : RenameOutcome) (effs : List GitEffect)
    (h : rename_file pd gl n strict true = Except.ok (o, effs)) : effs = [] := by
  cases hfc : first_commit_date (gl n) pd with
  | none =>
    rw [rename_file_of_none pd gl n strict true hfc] at h
    exact Except.noConfusion h
  | some d =>
    rw [rename_file_of_date pd gl n strict true d hfc] at h
    by_cases hc : strict = true ∧ takeChars (strftimeDateFormat d) 10 ≠ stemOf n
    · rw [if_pos hc] at h
      injection h with h2
      injection h2 with h3 h4
      exact h4.symm
    · rw [if_neg hc] at h
      injection h with h2
      injection h2 with h3 h4
      rw [← h4]
      rfl

theorem renameFilesGo_dry_effects (pd : String → Option DateTime) (gl : String → String)
    (strict : Bool) (l : List String) :
    (renameFilesGo pd gl strict true l).1 = [] := by
  induction l with
  | nil => rfl
  | cons n rest ih =>
    simp only [renameFilesGo]
    cases hrf : rename_file pd gl n strict true with
    | error e => rfl
    | ok p =>
      obtain ⟨o, effs⟩ := p
      have heffs := rename_file_dry_effects pd gl n strict o effs hrf
      simp [heffs, ih]

theorem rename_file_effect_sources (pd : String → Option DateTime) (gl : String → String)
    (n : String) (strict dry : Bool) (o : RenameOutcome) (effs : List GitEffect)
    (h : rename_file pd gl n strict dry = Except.ok (o, effs)) :
    ∀ e ∈ effs, ∃ dst, e = GitEffect.mv n dst ∨ e = GitEffect.commit n dst := by
  cases hfc : first_commit_date (gl n) pd with
  | none =>
    rw [rename_file_of_none pd gl n strict dry hfc] at h
    exact Except.noConfusion h
  | some d =>
    rw [rename_file_of_date pd gl n strict dry d hfc] at h
    by_cases hc : strict = true ∧ takeChars (strftimeDateFormat d) 10 ≠ stemOf n
    · rw [if_pos hc] at h
      injection h with h2
      injection h2 with h3 h4
      rw [← h4]
      intro e he
      cases he
    · rw [if_neg hc] at h
      injection h with h2
      injection h2 with h3 h4
      rw [← h4]
      cases dry with
      | true =>
        intro e he
        simp only [if_true] at he
        cases he
      | false =>
        intro e he
        simp only [Bool.false_eq_true, if_false, List.mem_cons,
          List.not_mem_nil, or_false] at he
        rcases he with h1 | h1
        · exact ⟨strftimeDateFormat d ++ ".csv", Or.inl h1⟩
        · exact ⟨strftimeDateFormat d ++ ".csv", Or.inr h1⟩

theorem renameFilesGo_sources (pd : String → Option DateTime) (gl : String → String)
    (strict dry : Bool) (l : List String) :
    ∀ e ∈ (renameFilesGo pd gl strict dry l).1,
      ∃ n, n ∈ l ∧ ∃ dst, e = GitEffect.mv n dst ∨ e = GitEffect.commit n dst := by
  induction l with
  | nil => intro e he; cases he
  | cons n rest ih =>
    simp only [renameFilesGo]
    cases hrf : rename_file pd gl n strict dry with
    | error err => intro e he; cases he
    | ok p =>
      obtain ⟨o, effs⟩ := p
      intro e he
      simp only [List.mem_append] at he
      cases he with
      | inl hin =>
        obtain ⟨dst, hor⟩ := rename_file_effect_sources pd gl n strict dry o effs hrf e hin
        exact ⟨n, List.mem_cons_self n rest, dst, hor⟩
      | inr hin =>
        obtain ⟨m, hm, dst, hor⟩ := ih e hin
        exact ⟨m, List.mem_cons_of_mem n hm, dst, hor⟩

theorem rename_files_sources_match (pd : String → Option DateTime) (gl : String → String)
    (names : List String) (strict dry : Bool) :
    ∀ e ∈ (rename_files pd gl names strict dry).1,
      matchesFileGlob (effectSource e) = true := by
  intro e he
  obtain ⟨n, hn, dst, hor⟩ := renameFilesGo_sources pd gl strict dry _ e he
  have hmem : n ∈ names.filter (fun m => matchesFileGlob m) := (mem_sortStrings n _).mp hn
  have hglob := (List.mem_filter.mp hmem).2
  cases hor with
  | inl h1 => rw [h1]; exact hglob
  | inr h1 => rw [h1]; exact hglob

theorem rename_files_nonmatching_untouched (pd : String → Option DateTime)
    (gl : String → String) (names : List String) (strict dry : Bool) (f : String)
    (hf : matchesFileGlob f = false) :
    (rename_files pd gl names strict dry).1.filter
      (fun e => effectSource e == f) = [] := by
  rw [List.filter_eq_nil_iff]
  intro e he
  have hglob := rename_files_sources_match pd gl names strict dry e he
  simp only [beq_iff_eq]
  intro hsrc
  rw [hsrc, hf] at hglob
  cases hglob

/-! ## Claim theorems for the renamer and the shared CLI contracts -/

theorem rmdd_ok (t : ℚ) (dedup dryRun : Bool) (files : List SFile)
    (h : 0 ≤ t ∧ t ≤ 1) :
    remove_and_deduplicate t dedup dryRun files
      = Except.ok
          (((scanGo t dedup dryRun initState files).state.removed_short,
            (scanGo t dedup dryRun initState files).state.removed_duplicates),
           (scanGo t dedup dryRun initState files).effects) := by
  unfold remove_and_deduplicate
  rw [if_pos h]

theorem rmdd_err (t : ℚ) (dedup dryRun : Bool) (files : List SFile)
    (h : ¬ (0 ≤ t ∧ t ≤ 1)) :
    remove_and_deduplicate t dedup dryRun files = Except.error toleranceMessage := by
  unfold remove_and_deduplicate
  rw [if_neg h]

/-- Claim C3: when the earliest commit date resolves to `d`, strict mode
renames the file to `<formatted-date>.csv` iff the first 10 characters of
the formatted date equal the file stem, skips it (no effect) otherwise, and
non-strict mode renames regardless of the mismatch. -/
theorem c3_rename_file_strict_mode (pd : String → Option DateTime)
    (gl : String → String) (name : String) (dry : Bool) (d : DateTime)
    (hfc : first_commit_date (gl name) pd = some d) :
    (takeChars (strftimeDateFormat d) 10 = stemOf name →
        rename_file pd gl name true dry
          = Except.ok (RenameOutcome.moved (strftimeDateFormat d ++ ".csv"),
              if dry = true then []
              else [GitEffect.mv name (strftimeDateFormat d ++ ".csv"),
                    GitEffect.commit name (strftimeDateFormat d ++ ".csv")]))
    ∧ (takeChars (strftimeDateFormat d) 10 ≠ stemOf name →
        rename_file pd gl name true dry = Except.ok (RenameOutcome.skipped, []))
    ∧ rename_file pd gl name false dry
        = Except.ok (RenameOutcome.moved (strftimeDateFormat d ++ ".csv"),
            if dry = true then []
            else [GitEffect.mv name (strftimeDateFormat d ++ ".csv"),
                  GitEffect.commit name (strftimeDateFormat d ++ ".csv")]) := by
  refine ⟨fun hmatch => ?_, fun hmis => ?_, ?_⟩
  · rw [rename_file_of_date pd gl name true dry d hfc, if_neg (by simp [hmatch])]
  · rw [rename_file_of_date pd gl name true dry d hfc, if_pos ⟨rfl, hmis⟩]
  · rw [rename_file_of_date pd gl name false dry d hfc, if_neg (by simp)]

/-- Witness for C3: the two scenarios of the spec, with stem `2021-05-01`
and earliest commits `2021-05-01T14:30:00+00:00` (match: renamed) and
`2021-05-02T00:10:00+00:00` (mismatch: skipped in strict mode, renamed in
non-strict mode). -/
theorem c3_witness :
    first_commit_date
        ((fun _ : String => "2021-05-01T14:30:00+00:00") "2021-05-01.csv")
        (fun s => if s = "2021-05-01T14:30:00+00:00"
          then some ⟨2021, 5, 1, 14, 30, 0⟩ else none)
      = some ⟨2021, 5, 1, 14, 30, 0⟩
    ∧ rename_file
        (fun s => if s = "2021-05-01T14:30:00+00:00"
          then some ⟨2021, 5, 1, 14, 30, 0⟩ else none)
        (fun _ : String => "2021-05-01T14:30:00+00:00") "2021-05-01.csv" true false
      = Except.ok (RenameOutcome.moved
            (strftimeDateFormat ⟨2021, 5, 1, 14, 30, 0⟩ ++ ".csv"),
          if false = true then []
          else [GitEffect.mv "2021-05-01.csv"
                  (strftimeDateFormat ⟨2021, 5, 1, 14, 30, 0⟩ ++ ".csv"),
                GitEffect.commit "2021-05-01.csv"
                  (strftimeDateFormat ⟨2021, 5, 1, 14, 30, 0⟩ ++ ".csv")])
    ∧ rename_file
        (fun s => if s = "2021-05-02T00:10:00+00:00"
          then some ⟨2021, 5, 2, 0, 10, 0⟩ else none)
        (fun _ : String => "2021-05-02T00:10:00+00:00") "2021-05-01.csv" true false
      = Except.ok (RenameOutcome.skipped, [])
    ∧ rename_file
        (fun s => if s = "2021-05-02T00:10:00+00:00"
          then some ⟨2021, 5, 2, 0, 10, 0⟩ else none)
        (fun _ : String => "2021-05-02T00:10:00+00:00") "2021-05-01.csv" false false
      = Except.ok (RenameOutcome.moved
            (strftimeDateFormat ⟨2021, 5, 2, 0, 10, 0⟩ ++ ".csv"),
          if false = true then []
          else [GitEffect.mv "2021-05-01.csv"
                  (strftimeDateFormat ⟨2021, 5, 2, 0, 10, 0⟩ ++ ".csv"),
                GitEffect.commit "2021-05-01.csv"
                  (strftimeDateFormat ⟨2021, 5, 2, 0, 10, 0⟩ ++ ".csv")]) :=
  ⟨by decide,
   (c3_rename_file_strict_mode
      (fun s => if s = "2021-05-01T14:30:00+00:00"
        then some ⟨2021, 5, 1, 14, 30, 0⟩ else none)
      (fun _ : String => "2021-05-01T14:30:00+00:00") "2021-05-01.csv" false
      ⟨2021, 5, 1, 14, 30, 0⟩ (by decide)).1 (by decide),
   (c3_rename_file_strict_mode
      (fun s => if s = "2021-05-02T00:10:00+00:00"
        then some ⟨2021, 5, 2, 0, 10, 0⟩ else none)
      (fun _ : String => "2021-05-02T00:10:00+00:00") "2021-05-01.csv" false
      ⟨2021, 5, 2, 0, 10, 0⟩ (by decide)).2.1 (by decide),
   (c3_rename_file_strict_mode
      (fun s => if s = "2021-05-02T00:10:00+00:00"
        then some ⟨2021, 5, 2, 0, 10, 0⟩ else none)
      (fun _ : String => "2021-05-02T00:10:00+00:00") "2021-05-01.csv" false
      ⟨2021, 5, 2, 0, 10, 0⟩ (by decide)).2.2⟩

/-- Claim C4: for the same input and arguments, the dry run and the live run
of `remove_and_deduplicate` return identical counters and select exactly the
same paths for removal — the dry run prints what the live run unlinks. -/
theorem c4_dry_live_same_selection (t : ℚ) (dedup : Bool) (files : List SFile) :
    countersOf (remove_and_deduplicate t dedup true files)
        = countersOf (remove_and_deduplicate t dedup false files)
    ∧ printedPaths (effectsOf (remove_and_deduplicate t dedup true files))
        = unlinkedPaths (effectsOf (remove_and_deduplicate t dedup false files)) := by
  by_cases h : 0 ≤ t ∧ t ≤ 1
  · rw [rmdd_ok t dedup true files h, rmdd_ok t dedup false files h]
    constructor
    · simp only [countersOf]
      rw [(scanGo_dryRun_state t dedup true false files initState).1]
    · simp only [effectsOf]
      exact scanGo_removal_paths t dedup files initState
  · rw [rmdd_err t dedup true files h, rmdd_err t dedup false files h]
    exact ⟨rfl, rfl⟩

/-- Claim C5: when the file has no commit history (empty `git log` output),
`first_commit_date` returns `none` and `rename_file` fails with an error for
that file instead of renaming or silently skipping it. -/
theorem c5_missing_history_is_error (pd : String → Option DateTime)
    (gl : String → String) (name : String) (strict dry : Bool)
    (hlog : gl name = "") :
    first_commit_date (gl name) pd = none
    ∧ rename_file pd gl name strict dry = Except.error (missingDateError name) := by
  have h1 : first_commit_date (gl name) pd = none := by
    unfold first_commit_date
    rw [hlog]
    simp
  exact ⟨h1, rename_file_of_none pd gl name strict dry h1⟩

/-- Witness for C5: an oracle with empty log output for every path. -/
theorem c5_witness :
    (fun _ : String => "") "2021-05-01.csv" = ""
    ∧ (first_commit_date ((fun _ : String => "") "2021-05-01.csv")
          (fun _ => none) = none
      ∧ rename_file (fun _ => none) (fun _ : String => "") "2021-05-01.csv" true false
          = Except.error (missingDateError "2021-05-01.csv")) :=
  ⟨rfl, c5_missing_history_is_error (fun _ => none) (fun _ : String => "")
    "2021-05-01.csv" true false rfl⟩

/-- Claim C6: a tolerance outside `[0,1]` makes `remove_and_deduplicate`
fail immediately with the assertion message and no effect; a tolerance
inside `[0,1]` passes the precondition and the scan proceeds. -/
theorem c6_tolerance_precondition (t : ℚ) (dedup dryRun : Bool)
    (files : List SFile) :
    (¬ (0 ≤ t ∧ t ≤ 1) →
        remove_and_deduplicate t dedup dryRun files = Except.error toleranceMessage)
    ∧ ((0 ≤ t ∧ t ≤ 1) →
        remove_and_deduplicate t dedup dryRun files
          = Except.ok
              (((scanGo t dedup dryRun initState files).state.removed_short,
                (scanGo t dedup dryRun initState files).state.removed_duplicates),
               (scanGo t dedup dryRun initState files).effects)) :=
  ⟨fun h => rmdd_err t dedup dryRun files h, fun h => rmdd_ok t dedup dryRun files h⟩

/-- Witness for C6 at `t = 2` (precondition fails, error) and `t = 1/2`
(precondition holds, scan runs). -/
theorem c6_witness :
    ¬ ((0 : ℚ) ≤ 2 ∧ (2 : ℚ) ≤ 1)
    ∧ remove_and_deduplicate 2 true false [] = Except.error toleranceMessage
    ∧ ((0 : ℚ) ≤ 1/2 ∧ (1/2 : ℚ) ≤ 1)
    ∧ remove_and_deduplicate (1/2) true false []
        = Except.ok
            (((scanGo (1/2) true false initState []).state.removed_short,
              (scanGo (1/2) true false initState []).state.removed_duplicates),
             (scanGo (1/2) true false initState []).effects) :=
  ⟨by norm_num, (c6_tolerance_precondition 2 true false []).1 (by norm_num),
   ⟨by norm_num, by norm_num⟩,
   (c6_tolerance_precondition (1/2) true false []).2 ⟨by norm_num, by norm_num⟩⟩

/-- Claim C7: with `dry_run` set, neither tool mutates anything: the scanner
emits no `unlink` effect and the renamer performs no move and creates no
commit. -/
theorem c7_dry_run_never_mutates (t : ℚ) (dedup : Bool) (files : List SFile)
    (pd : String → Option DateTime) (gl : String → String) (names : List String)
    (strict : Bool) :
    (effectsOf (remove_and_deduplicate t dedup true files)).filter isUnlink = []
    ∧ (rename_files pd gl names strict true).1 = [] := by
  refine ⟨?_, renameFilesGo_dry_effects pd gl strict _⟩
  by_cases h : 0 ≤ t ∧ t ≤ 1
  · rw [rmdd_ok t dedup true files h]
    simp only [effectsOf]
    exact scanGo_dry_no_unlink t dedup files initState
  · rw [rmdd_err t dedup true files h]
    rfl

/-- Claim C8: a file already carrying its full-timestamp target name
`<YYYY-MM-DDTHH-MM-SS>.csv` does not match `FILE_GLOB` (its name is at least
23 characters, the pattern exactly 14), so a new run of `rename_files` never
moves it or commits over it again — resuming a terminated run is safe. -/
theorem c8_full_timestamp_names_untouched (d : DateTime)
    (pd : String → Option DateTime) (gl : String → String) (names : List String)
    (strict dry : Bool) :
    matchesFileGlob (strftimeDateFormat d ++ ".csv") = false
    ∧ (rename_files pd gl names strict dry).1.filter
        (fun e => effectSource e == strftimeDateFormat d ++ ".csv") = [] := by
  have hlen := strftime_length d
  have hno : matchesFileGlob (strftimeDateFormat d ++ ".csv") = false := by
    cases hm : matchesFileGlob (strftimeDateFormat d ++ ".csv") with
    | false => rfl
    | true =>
      exfalso
      have hl := globRun_length hm
      rw [String.data_append, List.length_append] at hl
      have h4 : (".csv" : String).data.length = 4 := by decide
      have hatoms : fileGlobAtoms.length = 14 := by decide
      rw [h4, hatoms] at hl
      omega
  exact ⟨hno, rename_files_nonmatching_untouched pd gl names strict dry _ hno⟩

/-- Claim C10: every Git effect of `rename_files` acts on a name matching
`FILE_GLOB`, so any file whose name does not match the pattern — full
timestamp names, years outside 2000–2099, anything else — is never renamed,
moved, or committed over. -/
theorem c10_only_glob_matching_files_renamed (pd : String → Option DateTime)
    (gl : String → String) (names : List String) (strict dry : Bool) :
    ((rename_files pd gl names strict dry).1.all
        fun e => matchesFileGlob (effectSource e)) = true
    ∧ ∀ f, matchesFileGlob f = false →
        (rename_files pd gl names strict dry).1.filter
          (fun e => effectSource e == f) = [] := by
  refine ⟨?_, fun f hf =>
    rename_files_nonmatching_untouched pd gl names strict dry f hf⟩
  rw [List.all_eq_true]
  exact fun e he => rename_files_sources_match pd gl names strict dry e he

/-- Witness for C10: a directory with one matching file but an empty-history
oracle; a non-matching name is untouched. -/
theorem c10_witness :
    matchesFileGlob "2021-05-01T14-30-00.csv" = false
    ∧ (rename_files (fun _ => none) (fun _ : String => "")
        ["2021-05-01.csv"] true false).1.filter
          (fun e => effectSource e == "2021-05-01T14-30-00.csv") = [] :=
  ⟨by decide,
   (c10_only_glob_matching_files_renamed (fun _ => none) (fun _ : String => "")
      ["2021-05-01.csv"] true false).2 "2021-05-01T14-30-00.csv" (by decide)⟩
